import Mathlib

/-!
Shallow embedding of cpa/_module.py (class CPAModule).

A batched tensor is a list of rows over the real numbers.  The neural
network components built in CPAModule.__init__ (scvi.nn.Encoder and
FCLayers, and DrugNetwork / DecoderGauss / DecoderNB from the repository
file cpa/_utils.py) are opaque function-valued fields of the module
structure; their shape contracts, described in the specification, appear
as hypotheses of the theorems that need them.  Python failures (KeyError
on a missing dict key, torch.cat on an empty list, torch.nn.Embedding and
one_hot on an out-of-range index, the unimplemented count-likelihood loss
path) are modelled by Option, with none standing for a raised error.
-/

/-- A batched tensor: one row per cell. -/
abbrev Mat := List (List ℝ)

/-- Elementwise addition of two batched tensors of equal shape. -/
def addM (a b : Mat) : Mat :=
  List.zipWith (fun ra rb => List.zipWith (fun x y => x + y) ra rb) a b

/-- The matrix has r rows, each of length c. -/
def shapeIs (m : Mat) (r c : ℕ) : Prop :=
  m.length = r ∧ ∀ row ∈ m, row.length = c

/-- The (i, j) entry of a batched tensor, with default 0 outside the shape. -/
def entry (m : Mat) (i j : ℕ) : ℝ := (m.getD i []).getD j 0

/-- All entries in row order (torch .flatten()). -/
def mflat (m : Mat) : List ℝ := m.foldr (fun r acc => r ++ acc) []

/-- torch .mean() over all entries: sum divided by element count. -/
noncomputable def tmean (m : Mat) : ℝ := (mflat m).sum / (mflat m).length

/-- Elementwise square (torch .pow(2)). -/
def msq (m : Mat) : Mat := m.map (fun r => r.map (fun z => z ^ 2))

/-- Elementwise ternary zip on vectors, truncating to the shortest. -/
def zip3V (f : ℝ → ℝ → ℝ → ℝ) : List ℝ → List ℝ → List ℝ → List ℝ
  | x :: xs, m :: ms, v :: vs => f x m v :: zip3V f xs ms vs
  | _, _, _ => []

/-- Elementwise ternary zip on matrices. -/
def zip3M (f : ℝ → ℝ → ℝ → ℝ) : Mat → Mat → Mat → Mat
  | x :: xs, m :: ms, v :: vs => zip3V f x m v :: zip3M f xs ms vs
  | _, _, _ => []

/-- The CPA module.  The configuration fields mirror CPAModule.__init__;
the network components built there are opaque functions, since their code
lives in scvi and in cpa/_utils.py, outside the file being verified. -/
structure CPAModule where
  n_genes : ℕ
  n_drugs : ℕ
  n_latent : ℕ
  /-- covars_to_ncovars: the ordered covariate vocabulary, name to
  number of distinct levels (Python dicts preserve insertion order). -/
  covars_to_ncovars : List (String × ℕ)
  /-- loss_ae: the likelihood family, "gauss" or "nb". -/
  loss_ae : String
  variational : Bool
  /-- scvi Encoder used when variational: genes to (qz_m, qz_v, sampled latent). -/
  encoderV : Mat → Mat × Mat × Mat
  /-- scvi FCLayers encoder used when not variational. -/
  encoderD : Mat → Mat
  /-- library-size encoder built for the count path. -/
  l_encoder : Mat → Mat
  /-- learned per-gene dispersion parameter. -/
  px_r : List ℝ
  /-- Modelled from the spec: DecoderGauss (cpa/_utils.py, not under src/)
  maps the composed latent matrix to per-gene means and variances. -/
  decoderGauss : Mat → Mat × Mat
  /-- Modelled from the spec: DecoderNB (cpa/_utils.py, not under src/)
  builds a negative binomial distribution from the latent matrix and px_r;
  we record its defining parameters. -/
  decoderNB : Mat → List ℝ → Mat × List ℝ
  /-- Modelled from the spec: DrugNetwork (cpa/_utils.py, not under src/)
  maps the dose matrix to a latent perturbation embedding. -/
  drug_network : Mat → Mat
  drugs_classifier : Mat → Mat
  /-- one embedding table per covariate: level to its learned row. -/
  covars_embedding : String → ℕ → List ℝ
  covars_classifiers : String → Mat → Mat
  /-- torch.autograd.grad of drugs_classifier(x).sum() with respect to x,
  supplied by the external autodiff primitive (spec, section 9). -/
  gradDrugsSum : Mat → Mat
  /-- torch.autograd.grad of covars_classifiers c (x).sum() with respect to x. -/
  gradCovarSum : String → Mat → Mat

/-- The covariate names of the vocabulary, in order. -/
def CPAModule.covarKeys (M : CPAModule) : List String :=
  M.covars_to_ncovars.map Prod.fst

/-- Batched lookup in one covariate embedding table. -/
def CPAModule.embRows (M : CPAModule) (c : String) (levels : List ℕ) : Mat :=
  levels.map (M.covars_embedding c)

/-- The basal latent state produced by the encoder branch of inference. -/
def CPAModule.latentBasal (M : CPAModule) (genes : Mat) : Mat :=
  if M.variational then (M.encoderV genes).2.2 else M.encoderD genes

/-- torch.cat(ms, 0).sum(0) on a list of stacked matrices: raises on an
empty list, otherwise the elementwise sum of the matrices. -/
def catSum0 : List Mat → Option Mat
  | [] => none
  | m :: rest => some (rest.foldl addM m)

/-- The per-covariate embedding lookups performed by CPAModule.inference.
torch.nn.Embedding raises when an index lies outside its table. -/
def CPAModule.embedAll (M : CPAModule) (cd : String → List ℕ) :
    List (String × ℕ) → Option (List Mat)
  | [] => some []
  | cn :: rest =>
      if (cd cn.1).all (fun v => decide (v < cn.2)) then
        (CPAModule.embedAll M cd rest).map (fun ms => M.embRows cn.1 (cd cn.1) :: ms)
      else none

/-- The output dictionary of CPAModule.inference. -/
structure InferenceOutputs where
  latent : Mat
  latent_basal : Mat
  /-- the parameters (qz_m, qz_v) from which db.Normal(qz_m, qz_v.sqrt())
  is built on the variational path; none when absent. -/
  dist_qz : Option (Mat × Mat)
  library : Option Mat
  covars_dict : String → List ℕ

/-- CPAModule.inference: encode the basal state, embed covariates and
doses, and compose latent = latent_basal + latent_covariates +
latent_treatment. -/
def CPAModule.inference (M : CPAModule) (genes drugs_doses : Mat)
    (covars_dict : String → List ℕ) : Option InferenceOutputs :=
  let latent_basal := M.latentBasal genes
  let dist_qzbasal : Option (Mat × Mat) :=
    if M.variational then some ((M.encoderV genes).1, (M.encoderV genes).2.1) else none
  let library : Option Mat :=
    if M.loss_ae == "nb" then some (M.l_encoder genes) else none
  (M.embedAll covars_dict M.covars_to_ncovars).bind fun latent_covariates_list =>
  (catSum0 latent_covariates_list).bind fun latent_covariates =>
  let latent_treatment := M.drug_network drugs_doses
  some { latent := addM (addM latent_basal latent_covariates) latent_treatment,
         latent_basal := latent_basal,
         dist_qz := dist_qzbasal,
         library := library,
         covars_dict := covars_dict }

/-- The output dictionary of CPAModule.generative.  The Gaussian path
fills means and variances; the count path fills dist_px. -/
structure GenerativeOutputs where
  means : Option Mat
  variances : Option Mat
  /-- the parameters of the negative binomial decoder output. -/
  dist_px : Option (Mat × List ℝ)
  drugs_pred : Mat
  covars_pred : List (String × Mat)

/-- CPAModule.generative: adversarial predictions from the basal latent
state, and the decoder applied to the composed latent. -/
def CPAModule.generative (M : CPAModule) (latent latent_basal : Mat) :
    GenerativeOutputs :=
  let drugs_pred := M.drugs_classifier latent_basal
  let covars_pred := M.covarKeys.map (fun c => (c, M.covars_classifiers c latent_basal))
  if M.loss_ae == "nb" then
    { means := none, variances := none,
      dist_px := some (M.decoderNB latent M.px_r),
      drugs_pred := drugs_pred, covars_pred := covars_pred }
  else
    { means := some (M.decoderGauss latent).1,
      variances := some (M.decoderGauss latent).2,
      dist_px := none,
      drugs_pred := drugs_pred, covars_pred := covars_pred }

/-- A raw batch: gene expression under X_KEY, the dose matrix under
PERTURBATIONS, and one integer-level tensor per covariate name. -/
structure Tensors where
  x : Mat
  doses : Mat
  covars : List (String × List ℕ)

/-- The argument bundle produced for CPAModule.inference. -/
structure InferenceInput where
  genes : Mat
  drugs_doses : Mat
  covars_dict : String → List ℕ

/-- CPAModule._get_inference_input.  It iterates over the vocabulary and
reads tensors[covar]; a Python dict read raises KeyError when the key is
missing, so the call fails if any vocabulary covariate is absent from the
batch.  Keys of the batch outside the vocabulary are never read. -/
def CPAModule.getInferenceInput (M : CPAModule) (t : Tensors) :
    Option InferenceInput :=
  if M.covarKeys.all (fun c => (List.lookup c t.covars).isSome) then
    some { genes := t.x, drugs_doses := t.doses,
           covars_dict := fun c => (List.lookup c t.covars).getD [] }
  else none

/-- CPAModule._get_generative_input.  It reads tensors[covar] again and
one-hot encodes it, raising on a missing key or an out-of-range level,
but only latent and latent_basal are passed on (the one-hot dictionary is
built and then dropped). -/
def CPAModule.getGenerativeInput (M : CPAModule) (t : Tensors)
    (io : InferenceOutputs) : Option (Mat × Mat) :=
  if M.covars_to_ncovars.all (fun cn =>
      match List.lookup cn.1 t.covars with
      | some levels => levels.all (fun v => decide (v < cn.2))
      | none => false) then
    some (io.latent, io.latent_basal)
  else none

/-- The scvi BaseModuleClass.forward pipeline used by get_expression:
input preparation, inference, generative-input preparation, generative. -/
def CPAModule.forwardPass (M : CPAModule) (t : Tensors) :
    Option (InferenceOutputs × GenerativeOutputs) :=
  (M.getInferenceInput t).bind fun inp =>
  (M.inference inp.genes inp.drugs_doses inp.covars_dict).bind fun io =>
  (M.getGenerativeInput t io).map fun gi =>
  (io, M.generative gi.1 gi.2)

/-- CPAModule.get_expression: run the forward pipeline and return the
decoded (means, variances); raise ValueError unless loss_ae is "gauss". -/
def CPAModule.get_expression (M : CPAModule) (t : Tensors) :
    Option (Mat × Mat) :=
  (M.forwardPass t).bind fun out =>
  if M.loss_ae == "gauss" then
    out.2.means.bind fun mus => out.2.variances.map fun stds => (mus, stds)
  else none

/-- CPAModule.loss: the Gaussian reconstruction loss
(variances.log().div(2) + (x - means).pow(2).div(variances.mul(2))).mean().
Reading a missing key of the generative outputs, or reaching the
unimplemented count branch, is a raised error (none). -/
noncomputable def CPAModule.loss (M : CPAModule) (t : Tensors)
    (_inference_outputs : InferenceOutputs) (gen : GenerativeOutputs) : Option ℝ :=
  let x := t.x
  gen.means.bind fun means =>
  gen.variances.bind fun variances =>
  if M.loss_ae == "gauss" then
    let term1 := variances.map (fun row => row.map (fun v => Real.log v / 2))
    let sqdiff := List.zipWith (fun xr mr =>
      List.zipWith (fun a b => (a - b) ^ 2) xr mr) x means
    let term2 := List.zipWith (fun sr vr =>
      List.zipWith (fun s v => s / (v * 2)) sr vr) sqdiff variances
    some (tmean (addM term1 term2))
  else none

/-- torch.nn.CrossEntropyLoss with mean reduction: per sample, minus the
log-softmax of the logits at the target index, averaged over the batch. -/
noncomputable def crossEntropyLoss (logits : Mat) (target : List ℕ) : ℝ :=
  let per := List.zipWith
    (fun row t => Real.log ((row.map Real.exp).sum) - row.getD t 0) logits target
  per.sum / per.length

/-- The logistic sigmoid. -/
noncomputable def sigmoid (z : ℝ) : ℝ := 1 / (1 + Real.exp (-z))

/-- torch.nn.BCEWithLogitsLoss with mean reduction over all entries. -/
noncomputable def bceWithLogitsLoss (logits targets : Mat) : ℝ :=
  tmean (List.zipWith (fun lr tr => List.zipWith
    (fun z y => -(y * Real.log (sigmoid z) + (1 - y) * Real.log (1 - sigmoid z)))
    lr tr) logits targets)

/-- drugs_doses.gt(0).float(): 1.0 where the dose is strictly positive,
0.0 elsewhere. -/
noncomputable def gtZeroFloat (m : Mat) : Mat :=
  m.map (fun r => r.map (fun d => if 0 < d then (1 : ℝ) else 0))

/-- CPAModule.adversarial_loss: the summed classification losses and the
summed gradient penalties.  The gradients of the classifier logits with
respect to latent_basal are the gradDrugsSum / gradCovarSum fields,
standing for torch.autograd.grad; covars_pred[covar] is a dict read
(every vocabulary key is present when the outputs come from generative). -/
noncomputable def CPAModule.adversarial_loss (M : CPAModule) (t : Tensors)
    (io : InferenceOutputs) (gen : GenerativeOutputs) : ℝ × ℝ :=
  let drugs_doses := t.doses
  let latent_basal := io.latent_basal
  let adv_covars_loss := M.covarKeys.foldl
    (fun acc c => acc + crossEntropyLoss
      ((List.lookup c gen.covars_pred).getD []) (io.covars_dict c)) 0
  let adv_drugs_loss := bceWithLogitsLoss gen.drugs_pred (gtZeroFloat drugs_doses)
  let adv_loss := adv_drugs_loss + adv_covars_loss
  let adv_penalty_covariates := M.covarKeys.foldl
    (fun acc c => acc + tmean (msq (M.gradCovarSum c latent_basal))) 0
  let adv_penalty_treatments := tmean (msq (M.gradDrugsSum latent_basal))
  (adv_loss, adv_penalty_covariates + adv_penalty_treatments)

/-! ## Concrete instances used to exercise the definitions -/

/-- A trivial Gaussian, non-variational module whose covariate vocabulary
is empty. -/
def Mempty : CPAModule where
  n_genes := 1
  n_drugs := 1
  n_latent := 1
  covars_to_ncovars := []
  loss_ae := "gauss"
  variational := false
  encoderV := fun _ => ([], [], [])
  encoderD := fun _ => []
  l_encoder := fun _ => []
  px_r := []
  decoderGauss := fun _ => ([], [])
  decoderNB := fun _ _ => ([], [])
  drug_network := fun _ => []
  drugs_classifier := fun _ => []
  covars_embedding := fun _ _ => []
  covars_classifiers := fun _ _ => []
  gradDrugsSum := fun _ => []
  gradCovarSum := fun _ _ => []

/-- A concrete Gaussian variational module: one gene, one drug, a
one-dimensional latent space and one covariate "c" with two levels. -/
def Mone : CPAModule where
  n_genes := 1
  n_drugs := 1
  n_latent := 1
  covars_to_ncovars := [("c", 2)]
  loss_ae := "gauss"
  variational := true
  encoderV := fun _ => ([[0]], [[1]], [[1]])
  encoderD := fun _ => [[1]]
  l_encoder := fun _ => [[0]]
  px_r := [1]
  decoderGauss := fun z => (z.map (fun _ => [0]), z.map (fun _ => [1]))
  decoderNB := fun _ _ => ([], [])
  drug_network := fun d => d.map (fun _ => [3])
  drugs_classifier := fun m => m
  covars_embedding := fun _ _ => [2]
  covars_classifiers := fun _ m => m
  gradDrugsSum := fun _ => [[0]]
  gradCovarSum := fun _ _ => [[0]]

/-- Mone reconfigured with the negative binomial likelihood. -/
def Mnb : CPAModule := { Mone with loss_ae := "nb", variational := false }

/-- A one-cell covariate assignment at level 0. -/
def cd1 : String → List ℕ := fun _ => [0]

/-- The inference output of Mone on the one-cell batch below. -/
def out1 : InferenceOutputs where
  latent := addM (addM [[1]] [[2]]) [[3]]
  latent_basal := [[1]]
  dist_qz := some ([[0]], [[1]])
  library := none
  covars_dict := cd1

/-- A one-cell batch for Mone: one gene at 0, one drug at dose 0, level 0. -/
def t1 : Tensors where
  x := [[0]]
  doses := [[0]]
  covars := [("c", [0])]

/-- A batch that also supplies a covariate name outside the vocabulary. -/
def t8 : Tensors where
  x := [[0]]
  doses := [[0]]
  covars := [("c", [0]), ("junk", [1])]

/-- A batch that omits the vocabulary covariate "c". -/
def t8m : Tensors where
  x := [[0]]
  doses := [[0]]
  covars := []

/-! ## Helper lemmas -/

theorem getD_zipWith {α β γ : Type} (f : α → β → γ) (a : List α) (b : List β)
    (i : ℕ) (da : α) (db : β) (dg : γ)
    (ha : i < a.length) (hb : i < b.length) :
    (List.zipWith f a b).getD i dg = f (a.getD i da) (b.getD i db) := by
  induction a generalizing b i with
  | nil => simp at ha
  | cons x xs ih =>
    cases b with
    | nil => simp at hb
    | cons y ys =>
      cases i with
      | zero => simp [List.getD]
      | succ n =>
        simp only [List.zipWith_cons_cons, List.getD_cons_succ]
        exact ih ys n (Nat.lt_of_succ_lt_succ ha) (Nat.lt_of_succ_lt_succ hb)

theorem rowsOK_addM {a b : Mat} {c : ℕ}
    (ha : ∀ r ∈ a, r.length = c) (hb : ∀ r ∈ b, r.length = c) :
    ∀ r ∈ addM a b, r.length = c := by
  induction a generalizing b with
  | nil => simp [addM]
  | cons x xs ih =>
    cases b with
    | nil => simp [addM]
    | cons y ys =>
      intro r hr
      simp only [addM, List.zipWith_cons_cons, List.mem_cons] at hr
      rcases hr with rfl | hr
      · rw [List.length_zipWith, ha x (by simp), hb y (by simp), min_self]
      · exact ih (fun r hr => ha r (List.mem_cons_of_mem _ hr))
          (fun r hr => hb r (List.mem_cons_of_mem _ hr)) r hr

theorem addM_shape {a b : Mat} {r c : ℕ}
    (ha : shapeIs a r c) (hb : shapeIs b r c) : shapeIs (addM a b) r c := by
  refine ⟨?_, rowsOK_addM ha.2 hb.2⟩
  rw [addM, List.length_zipWith, ha.1, hb.1, min_self]

theorem foldl_addM_shape {r c : ℕ} (rest : List Mat) (m : Mat)
    (h : shapeIs m r c) (hrest : ∀ x ∈ rest, shapeIs x r c) :
    shapeIs (rest.foldl addM m) r c := by
  induction rest generalizing m with
  | nil => exact h
  | cons x xs ih =>
    exact ih (addM m x) (addM_shape h (hrest x (by simp)))
      (fun y hy => hrest y (List.mem_cons_of_mem _ hy))

theorem entry_addM {a b : Mat} {r c : ℕ}
    (ha : shapeIs a r c) (hb : shapeIs b r c) {i j : ℕ}
    (hi : i < r) (hj : j < c) :
    entry (addM a b) i j = entry a i j + entry b i j := by
  have hia : i < a.length := ha.1 ▸ hi
  have hib : i < b.length := hb.1 ▸ hi
  have hja : j < (a.getD i []).length := by
    rw [List.getD_eq_getElem a [] hia, ha.2 _ (List.getElem_mem hia)]; exact hj
  have hjb : j < (b.getD i []).length := by
    rw [List.getD_eq_getElem b [] hib, hb.2 _ (List.getElem_mem hib)]; exact hj
  unfold entry addM
  rw [getD_zipWith _ a b i [] [] [] hia hib,
      getD_zipWith _ (a.getD i []) (b.getD i []) j 0 0 0 hja hjb]

theorem entry_foldl_addM {r c : ℕ} (rest : List Mat) (m : Mat)
    (h : shapeIs m r c) (hrest : ∀ x ∈ rest, shapeIs x r c) {i j : ℕ}
    (hi : i < r) (hj : j < c) :
    entry (rest.foldl addM m) i j
      = entry m i j + (rest.map (fun x => entry x i j)).sum := by
  induction rest generalizing m with
  | nil => simp
  | cons x xs ih =>
    have hx : shapeIs x r c := hrest x (by simp)
    have := ih (addM m x) (addM_shape h hx)
      (fun y hy => hrest y (List.mem_cons_of_mem _ hy))
    rw [List.foldl_cons, this, entry_addM h hx hi hj, List.map_cons,
        List.sum_cons, add_assoc]

theorem embedAll_some_eq (M : CPAModule) (cd : String → List ℕ)
    (covs : List (String × ℕ)) (ms : List Mat)
    (h : M.embedAll cd covs = some ms) :
    ms = covs.map (fun cn => M.embRows cn.1 (cd cn.1)) := by
  induction covs generalizing ms with
  | nil => simp [CPAModule.embedAll] at h; simp [h.symm]
  | cons cn rest ih =>
    rw [CPAModule.embedAll] at h
    by_cases hc : (cd cn.1).all (fun v => decide (v < cn.2)) = true
    · rw [if_pos hc] at h
      obtain ⟨ms', hms', rfl⟩ := Option.map_eq_some'.mp h
      rw [List.map_cons, ih ms' hms']
    · rw [if_neg hc] at h; exact absurd h (by simp)

theorem embedAll_eq_some (M : CPAModule) (cd : String → List ℕ)
    (covs : List (String × ℕ))
    (hrange : ∀ cn ∈ covs, ∀ v ∈ cd cn.1, v < cn.2) :
    M.embedAll cd covs = some (covs.map (fun cn => M.embRows cn.1 (cd cn.1))) := by
  induction covs with
  | nil => rfl
  | cons cn rest ih =>
    rw [CPAModule.embedAll, if_pos, ih
      (fun c hc => hrange c (List.mem_cons_of_mem _ hc))]
    · rfl
    · exact List.all_eq_true.mpr fun v hv =>
        decide_eq_true (hrange cn (by simp) v hv)

theorem foldl_add_map {α : Type} (g : α → ℝ) (l : List α) (a : ℝ) :
    l.foldl (fun acc c => acc + g c) a = a + (l.map g).sum := by
  induction l generalizing a with
  | nil => simp
  | cons x xs ih => simp [ih, add_assoc]

theorem foldl_add_congr {α : Type} (g h : α → ℝ) (l : List α) (a : ℝ)
    (hgh : ∀ c ∈ l, g c = h c) :
    l.foldl (fun acc c => acc + g c) a = l.foldl (fun acc c => acc + h c) a := by
  induction l generalizing a with
  | nil => rfl
  | cons x xs ih =>
    simp only [List.foldl_cons, hgh x (by simp)]
    exact ih _ (fun c hc => hgh c (List.mem_cons_of_mem _ hc))

theorem lookup_map_self {β : Type} (f : String → β) (keys : List String)
    (c : String) (hc : c ∈ keys) :
    List.lookup c (keys.map (fun k => (k, f k))) = some (f c) := by
  induction keys with
  | nil => simp at hc
  | cons k ks ih =>
    rw [List.map_cons, List.lookup_cons]
    by_cases hck : (c == k) = true
    · rw [hck]; rw [beq_iff_eq] at hck; rw [hck]
    · rw [Bool.not_eq_true] at hck; rw [hck]
      rcases List.mem_cons.mp hc with rfl | hmem
      · simp at hck
      · exact ih hmem

theorem mem_mflat {x : ℝ} {m : Mat} (h : x ∈ mflat m) : ∃ r ∈ m, x ∈ r := by
  induction m with
  | nil => simp [mflat] at h
  | cons row rest ih =>
    rw [mflat, List.foldr_cons] at h
    rcases List.mem_append.mp h with hr | hrest
    · exact ⟨row, by simp, hr⟩
    · obtain ⟨r, hrm, hxr⟩ := ih hrest
      exact ⟨r, List.mem_cons_of_mem _ hrm, hxr⟩

theorem tmean_msq_nonneg (m : Mat) : 0 ≤ tmean (msq m) := by
  refine div_nonneg (List.sum_nonneg fun x hx => ?_) (Nat.cast_nonneg _)
  obtain ⟨r, hrm, hxr⟩ := mem_mflat hx
  obtain ⟨row, _, rfl⟩ := List.mem_map.mp hrm
  obtain ⟨z, _, rfl⟩ := List.mem_map.mp hxr
  exact sq_nonneg z

theorem generative_drugs_pred (M : CPAModule) (latent latent_basal : Mat) :
    (M.generative latent latent_basal).drugs_pred = M.drugs_classifier latent_basal := by
  rw [CPAModule.generative]
  by_cases h : (M.loss_ae == "nb") = true
  · rw [if_pos h]
  · rw [if_neg h]

theorem generative_covars_pred (M : CPAModule) (latent latent_basal : Mat) :
    (M.generative latent latent_basal).covars_pred
      = M.covarKeys.map (fun c => (c, M.covars_classifiers c latent_basal)) := by
  rw [CPAModule.generative]
  by_cases h : (M.loss_ae == "nb") = true
  · rw [if_pos h]
  · rw [if_neg h]

theorem inference_eq (M : CPAModule) (genes doses : Mat) (cd : String → List ℕ)
    (m : Mat) (rest : List Mat)
    (h : M.embedAll cd M.covars_to_ncovars = some (m :: rest)) :
    M.inference genes doses cd = some
      { latent := addM (addM (M.latentBasal genes) (rest.foldl addM m))
          (M.drug_network doses),
        latent_basal := M.latentBasal genes,
        dist_qz := if M.variational then
          some ((M.encoderV genes).1, (M.encoderV genes).2.1) else none,
        library := if M.loss_ae == "nb" then some (M.l_encoder genes) else none,
        covars_dict := cd } := by
  rw [CPAModule.inference, h]
  rfl

theorem inference_shape (M : CPAModule) (genes doses : Mat)
    (cd : String → List ℕ) (b : ℕ)
    (hne : M.covars_to_ncovars ≠ [])
    (hrange : ∀ cn ∈ M.covars_to_ncovars, ∀ v ∈ cd cn.1, v < cn.2)
    (hbas : shapeIs (M.latentBasal genes) b M.n_latent)
    (hemb : ∀ cn ∈ M.covars_to_ncovars,
      shapeIs (M.embRows cn.1 (cd cn.1)) b M.n_latent)
    (hdr : shapeIs (M.drug_network doses) b M.n_latent) :
    ∃ out, M.inference genes doses cd = some out ∧
      shapeIs out.latent b M.n_latent := by
  have hm : ∃ m rest,
      M.covars_to_ncovars.map (fun cn => M.embRows cn.1 (cd cn.1)) = m :: rest := by
    cases h2 : M.covars_to_ncovars with
    | nil => exact absurd h2 hne
    | cons a l => exact ⟨_, _, by rw [List.map_cons]⟩
  obtain ⟨m, rest, hm⟩ := hm
  have hembA := embedAll_eq_some M cd M.covars_to_ncovars hrange
  rw [hm] at hembA
  have hall : ∀ x ∈ m :: rest, shapeIs x b M.n_latent := by
    intro x hx
    rw [← hm] at hx
    obtain ⟨cn', hcn', rfl⟩ := List.mem_map.mp hx
    exact hemb cn' hcn'
  refine ⟨_, inference_eq M genes doses cd m rest hembA, ?_⟩
  exact addM_shape (addM_shape hbas (foldl_addM_shape rest m (hall m (by simp))
    (fun x hx => hall x (List.mem_cons_of_mem _ hx)))) hdr

/-! ## Claims -/

/-- Claim C5: the drug and covariate predictions returned by generative
depend only on the basal latent input: two calls with the same
latent_basal but different composed latent vectors return identical
drugs_pred and identical covars_pred entries. -/
theorem C5_adversary_reads_basal_only (M : CPAModule) (l1 l2 lb : Mat) :
    (M.generative l1 lb).drugs_pred = (M.generative l2 lb).drugs_pred ∧
    (M.generative l1 lb).covars_pred = (M.generative l2 lb).covars_pred := by
  rw [generative_drugs_pred, generative_drugs_pred,
      generative_covars_pred, generative_covars_pred]
  exact ⟨rfl, rfl⟩

/-- Claim C9: with the negative binomial likelihood the loss call fails
(the generative outputs carry no means/variances and the count loss path
is unimplemented), so no reconstruction value is returned. -/
theorem C9_nb_loss_unimplemented (M : CPAModule) (t : Tensors)
    (io : InferenceOutputs) (l lb : Mat) (hnb : M.loss_ae = "nb") :
    M.loss t io (M.generative l lb) = none := by
  have h : (M.generative l lb).means = none := by
    rw [CPAModule.generative, if_pos (by rw [hnb]; rfl)]
  simp [CPAModule.loss, h]

/-- Witness for C9 at the concrete count-likelihood module Mnb. -/
theorem C9_nb_loss_unimplemented_witness :
    Mnb.loss_ae = "nb" ∧ Mnb.loss t1 out1 (Mnb.generative [[0]] [[0]]) = none :=
  ⟨rfl, C9_nb_loss_unimplemented Mnb t1 out1 [[0]] [[0]] rfl⟩

/-- Claim C10: whenever inference succeeds, dist_qz is null exactly when
the module is non-variational, and library is null exactly when the
likelihood family is not "nb". -/
theorem C10_nullable_fields (M : CPAModule) (genes drugs_doses : Mat)
    (cd : String → List ℕ) (out : InferenceOutputs)
    (hinf : M.inference genes drugs_doses cd = some out) :
    (out.dist_qz = none ↔ M.variational = false) ∧
    (out.library = none ↔ M.loss_ae ≠ "nb") := by
  cases hembA : M.embedAll cd M.covars_to_ncovars with
  | none => rw [CPAModule.inference, hembA] at hinf; exact absurd hinf (by simp)
  | some lcs =>
    cases lcs with
    | nil =>
      rw [CPAModule.inference, hembA] at hinf
      exact absurd hinf (by simp [catSum0])
    | cons m rest =>
      rw [inference_eq M genes drugs_doses cd m rest hembA] at hinf
      have hout := (Option.some.inj hinf).symm
      subst hout
      constructor
      · cases hv : M.variational <;> simp [hv]
      · by_cases hl : M.loss_ae = "nb"
        · simp [hl]
        · have hb : (M.loss_ae == "nb") = false := by
            simp [hl]
          simp [hb, hl]

/-- Witness for C10 at Mone (variational, Gaussian): dist_qz is non-null
and library is null. -/
theorem C10_nullable_fields_witness :
    Mone.inference [[0]] [[0]] cd1 = some out1 ∧
    ((out1.dist_qz = none ↔ Mone.variational = false) ∧
     (out1.library = none ↔ Mone.loss_ae ≠ "nb")) :=
  ⟨rfl, C10_nullable_fields Mone [[0]] [[0]] cd1 out1 rfl⟩

/-- Claim C8 counterexample: the batch t8 supplies the covariate name
"junk", absent from Mone's vocabulary, and _get_inference_input succeeds
anyway: an extra covariate name is ignored, not a hard failure. -/
theorem C8_extra_name_counterexample :
    (Mone.getInferenceInput t8).isSome = true := rfl

/-- Claim C8 (amended): a vocabulary covariate that is missing from the
supplied batch propagates as a hard failure of _get_inference_input
(a KeyError), with no recovery; supplied names outside the vocabulary are
ignored. -/
theorem C8_missing_covariate_fails (M : CPAModule) (t : Tensors) (c : String)
    (hmem : c ∈ M.covarKeys) (hmiss : List.lookup c t.covars = none) :
    M.getInferenceInput t = none := by
  rw [CPAModule.getInferenceInput, if_neg]
  intro hall
  have h := List.all_eq_true.mp hall c hmem
  rw [hmiss] at h
  simp at h

/-- Witness for the amended C8: Mone requires covariate "c", and the batch
t8m omits it, so input preparation fails. -/
theorem C8_missing_covariate_fails_witness :
    "c" ∈ Mone.covarKeys ∧ List.lookup "c" t8m.covars = none ∧
    Mone.getInferenceInput t8m = none :=
  ⟨by simp [Mone, CPAModule.covarKeys], rfl,
   C8_missing_covariate_fails Mone t8m "c" (by simp [Mone, CPAModule.covarKeys]) rfl⟩

/-- Claim C3: the first component of adversarial_loss is the sum over the
covariate vocabulary of the categorical cross-entropy between each
covariate classifier's logits and the true levels, plus the binary
cross-entropy-with-logits between the drug classifier's logits and the
per-drug indicator of dose strictly greater than zero. -/
theorem C3_adversarial_classification_loss (M : CPAModule) (t : Tensors)
    (io : InferenceOutputs) (l : Mat) :
    (M.adversarial_loss t io (M.generative l io.latent_basal)).1
      = (M.covarKeys.map (fun c =>
          crossEntropyLoss (M.covars_classifiers c io.latent_basal)
            (io.covars_dict c))).sum
        + bceWithLogitsLoss (M.drugs_classifier io.latent_basal)
            (t.doses.map (fun r => r.map (fun d => if 0 < d then (1 : ℝ) else 0))) := by
  simp only [CPAModule.adversarial_loss, generative_covars_pred, generative_drugs_pred]
  rw [foldl_add_congr
      (fun c => crossEntropyLoss
        ((List.lookup c (M.covarKeys.map
          (fun k => (k, M.covars_classifiers k io.latent_basal)))).getD [])
        (io.covars_dict c))
      (fun c => crossEntropyLoss (M.covars_classifiers c io.latent_basal)
        (io.covars_dict c))
      M.covarKeys 0
      (fun c hc => by
        dsimp only
        rw [lookup_map_self (fun k => M.covars_classifiers k io.latent_basal)
          M.covarKeys c hc, Option.getD_some]),
    foldl_add_map, zero_add, add_comm]
  rfl

/-- Claim C4: the second component of adversarial_loss is the sum, over
the covariate classifiers and the drug classifier, of the mean over batch
and latent dimensions of the squared gradient of the classifier's summed
logits with respect to the basal latent input; hence it is nonnegative. -/
theorem C4_adversarial_penalty (M : CPAModule) (t : Tensors)
    (io : InferenceOutputs) (l : Mat) :
    (M.adversarial_loss t io (M.generative l io.latent_basal)).2
      = (M.covarKeys.map
          (fun c => tmean (msq (M.gradCovarSum c io.latent_basal)))).sum
        + tmean (msq (M.gradDrugsSum io.latent_basal))
    ∧ 0 ≤ (M.adversarial_loss t io (M.generative l io.latent_basal)).2 := by
  have heq : (M.adversarial_loss t io (M.generative l io.latent_basal)).2
      = (M.covarKeys.map
          (fun c => tmean (msq (M.gradCovarSum c io.latent_basal)))).sum
        + tmean (msq (M.gradDrugsSum io.latent_basal)) := by
    simp only [CPAModule.adversarial_loss]
    rw [foldl_add_map, zero_add]
  refine ⟨heq, ?_⟩
  rw [heq]
  refine add_nonneg (List.sum_nonneg fun x hx => ?_) (tmean_msq_nonneg _)
  obtain ⟨c, _, rfl⟩ := List.mem_map.mp hx
  exact tmean_msq_nonneg _

/-- Claim C1: the latent vector returned by inference is, entry by entry,
the sum of the basal latent state produced by the encoder, the summed
per-covariate embedding lookups over the whole vocabulary, and the drug
embedding produced by the dose-response network on the dose matrix. -/
theorem C1_latent_composition (M : CPAModule) (genes doses : Mat)
    (cd : String → List ℕ) (out : InferenceOutputs) (b d i j : ℕ)
    (hinf : M.inference genes doses cd = some out)
    (hbas : shapeIs (M.latentBasal genes) b d)
    (hemb : ∀ cn ∈ M.covars_to_ncovars, shapeIs (M.embRows cn.1 (cd cn.1)) b d)
    (hdr : shapeIs (M.drug_network doses) b d)
    (hi : i < b) (hj : j < d) :
    entry out.latent i j
      = entry (M.latentBasal genes) i j
        + (M.covars_to_ncovars.map
            (fun cn => entry (M.embRows cn.1 (cd cn.1)) i j)).sum
        + entry (M.drug_network doses) i j := by
  cases hembA : M.embedAll cd M.covars_to_ncovars with
  | none => rw [CPAModule.inference, hembA] at hinf; exact absurd hinf (by simp)
  | some lcs =>
    have hlcs := embedAll_some_eq M cd _ lcs hembA
    cases lcs with
    | nil =>
      rw [CPAModule.inference, hembA] at hinf
      exact absurd hinf (by simp [catSum0])
    | cons m rest =>
      rw [inference_eq M genes doses cd m rest hembA] at hinf
      have hout := (Option.some.inj hinf).symm
      subst hout
      have hall : ∀ x ∈ m :: rest, shapeIs x b d := by
        intro x hx
        rw [hlcs] at hx
        obtain ⟨cn', hcn', rfl⟩ := List.mem_map.mp hx
        exact hemb cn' hcn'
      have hS : shapeIs (rest.foldl addM m) b d :=
        foldl_addM_shape rest m (hall m (by simp))
          (fun x hx => hall x (List.mem_cons_of_mem _ hx))
      show entry (addM (addM (M.latentBasal genes) (rest.foldl addM m))
        (M.drug_network doses)) i j = _
      rw [entry_addM (addM_shape hbas hS) hdr hi hj, entry_addM hbas hS hi hj,
          entry_foldl_addM rest m (hall m (by simp))
            (fun x hx => hall x (List.mem_cons_of_mem _ hx)) hi hj]
      have hsum : (M.covars_to_ncovars.map
            (fun cn => entry (M.embRows cn.1 (cd cn.1)) i j)).sum
          = entry m i j + (rest.map (fun x => entry x i j)).sum := by
        have h2 : M.covars_to_ncovars.map
              (fun cn => entry (M.embRows cn.1 (cd cn.1)) i j)
            = (m :: rest).map (fun x => entry x i j) := by
          rw [hlcs, List.map_map]
          rfl
        rw [h2, List.map_cons, List.sum_cons]
      rw [hsum]

/-- Witness for C1 at the concrete module Mone and a one-cell batch. -/
theorem C1_latent_composition_witness :
    Mone.inference [[0]] [[0]] cd1 = some out1 ∧
    entry out1.latent 0 0
      = entry (Mone.latentBasal [[0]]) 0 0
        + (Mone.covars_to_ncovars.map
            (fun cn => entry (Mone.embRows cn.1 (cd1 cn.1)) 0 0)).sum
        + entry (Mone.drug_network [[0]]) 0 0 :=
  ⟨rfl, C1_latent_composition Mone [[0]] [[0]] cd1 out1 1 1 0 0 rfl
    (by simp [CPAModule.latentBasal, Mone, shapeIs])
    (by
      intro cn hcn
      simp only [Mone, List.mem_singleton] at hcn
      subst hcn
      simp [CPAModule.embRows, Mone, cd1, shapeIs])
    (by simp [Mone, shapeIs])
    (by decide) (by decide)⟩

/-- Claim C7 counterexample: with the empty covariate vocabulary inference
does not produce a latent vector at all: torch.cat applied to the empty
list of covariate embeddings raises. -/
theorem C7_empty_vocabulary_counterexample :
    Mempty.inference [] [] (fun _ => []) = none := rfl

/-- Claim C7 (amended): for every nonempty covariate vocabulary (one or
many covariates), with in-range levels and the spec's shape contracts for
the encoder, the embedding tables and the dose-response network, the
composed latent returned by inference has exactly n_latent columns; with
zero covariates configured, inference fails instead of returning a latent
vector. -/
theorem C7_latent_dimension (M : CPAModule) (genes doses : Mat)
    (cd : String → List ℕ) (b : ℕ)
    (hne : M.covars_to_ncovars ≠ [])
    (hrange : ∀ cn ∈ M.covars_to_ncovars, ∀ v ∈ cd cn.1, v < cn.2)
    (hbas : shapeIs (M.latentBasal genes) b M.n_latent)
    (hemb : ∀ cn ∈ M.covars_to_ncovars,
      shapeIs (M.embRows cn.1 (cd cn.1)) b M.n_latent)
    (hdr : shapeIs (M.drug_network doses) b M.n_latent) :
    ∃ out, M.inference genes doses cd = some out ∧
      shapeIs out.latent b M.n_latent :=
  inference_shape M genes doses cd b hne hrange hbas hemb hdr

/-- Witness for the amended C7 at Mone. -/
theorem C7_latent_dimension_witness :
    Mone.covars_to_ncovars ≠ [] ∧
    ∃ out, Mone.inference [[0]] [[0]] cd1 = some out ∧
      shapeIs out.latent 1 Mone.n_latent :=
  ⟨by simp [Mone],
   C7_latent_dimension Mone [[0]] [[0]] cd1 1 (by simp [Mone])
    (by
      intro cn hcn v hv
      simp only [Mone, List.mem_singleton] at hcn
      subst hcn
      simp only [cd1, List.mem_singleton] at hv
      subst hv
      decide)
    (by simp [CPAModule.latentBasal, Mone, shapeIs])
    (by
      intro cn hcn
      simp only [Mone, List.mem_singleton] at hcn
      subst hcn
      simp [CPAModule.embRows, Mone, cd1, shapeIs])
    (by simp [Mone, shapeIs])⟩

theorem gauss_vec_eq (xr mr vr : List ℝ) :
    List.zipWith (fun x y => x + y) (vr.map (fun v => Real.log v / 2))
      (List.zipWith (fun s v => s / (v * 2))
        (List.zipWith (fun a c => (a - c) ^ 2) xr mr) vr)
    = zip3V (fun a c v => 0.5 * Real.log v + (a - c) ^ 2 / (2 * v)) xr mr vr := by
  induction xr generalizing mr vr with
  | nil => cases mr <;> cases vr <;> rfl
  | cons x xs ih =>
    cases mr with
    | nil => cases vr <;> rfl
    | cons m ms =>
      cases vr with
      | nil => rfl
      | cons v vs =>
        simp only [List.map_cons, List.zipWith_cons_cons, zip3V]
        rw [ih ms vs]
        congr 1
        ring

theorem gauss_mat_eq (x means variances : Mat) :
    addM (variances.map (fun row => row.map (fun v => Real.log v / 2)))
      (List.zipWith (fun sr vr => List.zipWith (fun s v => s / (v * 2)) sr vr)
        (List.zipWith (fun xr mr => List.zipWith (fun a c => (a - c) ^ 2) xr mr)
          x means)
        variances)
    = zip3M (fun a c v => 0.5 * Real.log v + (a - c) ^ 2 / (2 * v))
        x means variances := by
  induction x generalizing means variances with
  | nil => cases means <;> cases variances <;> rfl
  | cons xr xs ih =>
    cases means with
    | nil => cases variances <;> rfl
    | cons mr ms =>
      cases variances with
      | nil => rfl
      | cons vr vs =>
        have htail := ih ms vs
        simp only [addM] at htail ⊢
        simp only [List.map_cons, List.zipWith_cons_cons, zip3M]
        rw [gauss_vec_eq xr mr vr, htail]

/-- Claim C2: under the Gaussian likelihood, loss returns one scalar: the
mean over all batch-by-gene entries of
0.5*log(variance) + (x - mean)^2 / (2*variance).  No KL term is added for
any value of the variational flag (the binder M covers variational =
true), and over the real numbers the result is a genuine real scalar. -/
theorem C2_gaussian_loss (M : CPAModule) (t : Tensors) (io : InferenceOutputs)
    (l lb : Mat) (hg : M.loss_ae = "gauss") :
    M.loss t io (M.generative l lb)
      = some (tmean (zip3M (fun a c v => 0.5 * Real.log v + (a - c) ^ 2 / (2 * v))
          t.x (M.decoderGauss l).1 (M.decoderGauss l).2)) := by
  have hnb : (M.loss_ae == "nb") = false := by rw [hg]; rfl
  have hgt : (M.loss_ae == "gauss") = true := by rw [hg]; rfl
  rw [CPAModule.generative, hnb, if_neg (by simp)]
  rw [CPAModule.loss]
  simp only [Option.some_bind]
  rw [if_pos hgt, gauss_mat_eq]

/-- Witness for C2 at the variational Gaussian module Mone. -/
theorem C2_gaussian_loss_witness :
    Mone.loss_ae = "gauss" ∧
    Mone.loss t1 out1 (Mone.generative [[0]] [[0]])
      = some (tmean (zip3M (fun a c v => 0.5 * Real.log v + (a - c) ^ 2 / (2 * v))
          t1.x (Mone.decoderGauss [[0]]).1 (Mone.decoderGauss [[0]]).2)) :=
  ⟨rfl, C2_gaussian_loss Mone t1 out1 [[0]] [[0]] rfl⟩

/-- Claim C6: get_expression fails deterministically whenever the
likelihood family is "nb" (the ValueError branch); under the "gauss"
family, with the spec's shape contract for the Gaussian decoder and a
well-formed batch, it returns a pair of matrices of shape
(batch, n_genes) each. -/
theorem C6_get_expression (M : CPAModule) (t : Tensors) (b : ℕ) :
    (M.loss_ae = "nb" → M.get_expression t = none) ∧
    (M.loss_ae = "gauss" →
      M.covars_to_ncovars ≠ [] →
      (∀ cn ∈ M.covars_to_ncovars, ∃ levels,
        List.lookup cn.1 t.covars = some levels ∧ ∀ v ∈ levels, v < cn.2) →
      shapeIs (M.latentBasal t.x) b M.n_latent →
      (∀ cn ∈ M.covars_to_ncovars,
        shapeIs (M.embRows cn.1 ((List.lookup cn.1 t.covars).getD []))
          b M.n_latent) →
      shapeIs (M.drug_network t.doses) b M.n_latent →
      (∀ z, shapeIs (M.decoderGauss z).1 z.length M.n_genes) →
      (∀ z, shapeIs (M.decoderGauss z).2 z.length M.n_genes) →
      ∃ mus stds, M.get_expression t = some (mus, stds) ∧
        shapeIs mus b M.n_genes ∧ shapeIs stds b M.n_genes) := by
  constructor
  · intro hnb
    have h : (M.loss_ae == "gauss") = false := by rw [hnb]; rfl
    rw [CPAModule.get_expression]
    cases hf : M.forwardPass t with
    | none => rfl
    | some out => simp [h]
  · intro hg hne hkeys hbas hemb hdr hdec1 hdec2
    have hin : M.getInferenceInput t = some
        { genes := t.x, drugs_doses := t.doses,
          covars_dict := fun c => (List.lookup c t.covars).getD [] } := by
      rw [CPAModule.getInferenceInput, if_pos]
      refine List.all_eq_true.mpr fun c hc => ?_
      rw [CPAModule.covarKeys] at hc
      obtain ⟨cn, hcn, rfl⟩ := List.mem_map.mp hc
      obtain ⟨levels, hl, _⟩ := hkeys cn hcn
      rw [hl]
      rfl
    obtain ⟨io, hio, hsh⟩ := inference_shape M t.x t.doses
      (fun c => (List.lookup c t.covars).getD []) b hne
      (fun cn hcn v hv => by
        obtain ⟨levels, hl, hr⟩ := hkeys cn hcn
        dsimp only at hv
        rw [hl] at hv
        simp only [Option.getD_some] at hv
        exact hr v hv)
      hbas hemb hdr
    have hgi : M.getGenerativeInput t io = some (io.latent, io.latent_basal) := by
      rw [CPAModule.getGenerativeInput, if_pos]
      refine List.all_eq_true.mpr fun cn hcn => ?_
      obtain ⟨levels, hl, hr⟩ := hkeys cn hcn
      rw [hl]
      exact List.all_eq_true.mpr fun v hv => decide_eq_true (hr v hv)
    have hnb' : (M.loss_ae == "nb") = false := by rw [hg]; rfl
    have hgt : (M.loss_ae == "gauss") = true := by rw [hg]; rfl
    refine ⟨(M.decoderGauss io.latent).1, (M.decoderGauss io.latent).2, ?_, ?_, ?_⟩
    · rw [CPAModule.get_expression, CPAModule.forwardPass, hin, Option.some_bind,
        hio, Option.some_bind, hgi]
      simp only [Option.map_some']
      rw [Option.some_bind, if_pos hgt, CPAModule.generative,
        hnb', if_neg (by simp)]
      rfl
    · have h := hdec1 io.latent
      rwa [hsh.1] at h
    · have h := hdec2 io.latent
      rwa [hsh.1] at h

/-- Witness for C6, applying the theorem on the count-likelihood module
Mnb (error path) and on the Gaussian module Mone (shape path). -/
theorem C6_get_expression_witness :
    (Mnb.loss_ae = "nb" ∧ Mnb.get_expression t1 = none) ∧
    (Mone.loss_ae = "gauss" ∧
      ∃ mus stds, Mone.get_expression t1 = some (mus, stds) ∧
        shapeIs mus 1 Mone.n_genes ∧ shapeIs stds 1 Mone.n_genes) :=
  ⟨⟨rfl, (C6_get_expression Mnb t1 1).1 rfl⟩,
   ⟨rfl, (C6_get_expression Mone t1 1).2 rfl (by simp [Mone])
    (by
      intro cn hcn
      simp only [Mone, List.mem_singleton] at hcn
      subst hcn
      exact ⟨[0], rfl, by intro v hv; simp only [List.mem_singleton] at hv; omega⟩)
    (by simp [CPAModule.latentBasal, Mone, shapeIs])
    (by
      intro cn hcn
      simp only [Mone, List.mem_singleton] at hcn
      subst hcn
      simp [CPAModule.embRows, Mone, t1, shapeIs])
    (by simp [Mone, t1, shapeIs])
    (by intro z; simp [Mone, shapeIs])
    (by intro z; simp [Mone, shapeIs])⟩⟩
